import Mathlib

/-!
Verification of the `avsplit` audio-splitting utility (`main.go`).

The development shallowly embeds the program's pure core: the timecode-line
parser, the track segmenter, the output-filename / ffmpeg-argument /
eyeD3-argument derivation, and the run orchestrator.  Strings are modelled as
Lean `String`s (Go operates on UTF-8 bytes; every byte-level operation the
program performs — splitting on the space character, trimming spaces,
ASCII-digit tests — coincides with the character-level operation).  The
timecode file is modelled as its list of scanner lines, and the filesystem and
the two external child processes (`ffmpeg`, `eyed3`) are modelled by an
explicit environment supplying their results, with the orchestrator's
state-changing steps recorded as an action trace.
-/

namespace Avsplit

/-- ASCII decimal-digit test, as Go `time`'s internal `isDigit` (`'0' <= c && c <= '9'`). -/
def isDigitChar (c : Char) : Bool :=
  '0' ≤ c && c ≤ '9'

/-- Numeric value of an ASCII digit (`c - '0'`). -/
def digitVal (c : Char) : Nat :=
  c.toNat - '0'.toNat

/-- Decimal value of a digit string, most significant first. -/
def natOfDigits (cs : List Char) : Nat :=
  cs.foldl (fun a c => 10 * a + digitVal c) 0

/-- Go `strings.Trim(s, " ")` on a character list: drop leading and trailing spaces. -/
def trimSpacesL (cs : List Char) : List Char :=
  ((cs.dropWhile (· = ' ')).reverse.dropWhile (· = ' ')).reverse

/-- Go `strings.Trim(s, " ")`: the string with leading and trailing space characters removed. -/
def trimSpaces (s : String) : String :=
  ⟨trimSpacesL s.data⟩

/-!
### Go `time.Parse("15:04:05", value)`

The layout `"15:04:05"` consists of the chunks `stdHour` (`getnum` with
`fixed = false`: one digit, or two when the second character is also a digit),
a literal `':'`, `stdZeroMinute` (`getnum` with `fixed = true`: exactly two
digits), `':'`, and `stdZeroSecond` (exactly two digits).  After the seconds
the parser accepts an optional fractional-second field — a `'.'` or `','`
followed by one or more digits — even though the layout has none; any
remaining input is an "extra text" error.  Hours must be < 24, minutes and
seconds < 60.
-/

/-- `getnum` with `fixed = true`: exactly two digits. -/
def parseFixed2 : List Char → Option (Nat × List Char)
  | a :: b :: r =>
    if isDigitChar a && isDigitChar b then some (10 * digitVal a + digitVal b, r) else none
  | _ => none

/-- `getnum` with `fixed = false` (the `stdHour` chunk): one digit, or two when the
second character is also a digit. -/
def parseHourTok : List Char → Option (Nat × List Char)
  | [] => none
  | [a] => if isDigitChar a then some (digitVal a, []) else none
  | a :: b :: r =>
    if isDigitChar a then
      if isDigitChar b then some (10 * digitVal a + digitVal b, r)
      else some (digitVal a, b :: r)
    else none

/-- A literal `':'` in the layout must match the next input character. -/
def expectColon : List Char → Option (List Char)
  | [] => none
  | c :: r => if c = ':' then some r else none

/-- The input remaining after the seconds chunk is accepted iff it is empty or is a
fractional-second field running to the end: `'.'` or `','` followed by one or more
digits. -/
def parseFrac : List Char → Bool
  | [] => true
  | c :: rest => (c = '.' || c = ',') && !rest.isEmpty && rest.all isDigitChar

/-- Whether Go `time.Parse("15:04:05", value)` succeeds on the given characters. -/
def timeParseOk (cs : List Char) : Bool :=
  match parseHourTok cs with
  | none => false
  | some (h, r1) =>
    match expectColon r1 with
    | none => false
    | some r2 =>
      match parseFixed2 r2 with
      | none => false
      | some (m, r3) =>
        match expectColon r3 with
        | none => false
        | some r4 =>
          match parseFixed2 r4 with
          | none => false
          | some (s, r5) =>
            decide (h < 24) && decide (m < 60) && decide (s < 60) && parseFrac r5

/-- `parseTime` (main.go): `time.Parse("15:04:05", strings.Trim(t, " "))`, as a
success predicate (the program only tests the error for `nil`). -/
def parseTime (t : String) : Bool :=
  timeParseOk (trimSpaces t).data

/-!
### The timecode-line parser (`run`, main.go lines 127–156)
-/

/-- Go `strings.SplitAfterN(s, " ", 2)` with the result's length test: `none` when the
string has no space (Go returns the one-element slice `[s]`, and `run` rejects the
line), otherwise the part up to and including the first space, and the rest. -/
def splitAfterSpaceL : List Char → Option (List Char × List Char)
  | [] => none
  | c :: r =>
    if c = ' ' then some ([c], r)
    else
      match splitAfterSpaceL r with
      | none => none
      | some (a, b) => some (c :: a, b)

/-- String version of `splitAfterSpaceL`. -/
def splitAfterSpace (s : String) : Option (String × String) :=
  match splitAfterSpaceL s.data with
  | none => none
  | some (a, b) => some (⟨a⟩, ⟨b⟩)

/-- The scan loop of `run` (main.go lines 130–148): skip empty lines, split each
remaining line at its first space, validate the time token, and collect the
space-trimmed `(time, title)` pairs; the first offending line aborts with the
corresponding error string. -/
def parseLines : List String → Except String (List (String × String))
  | [] => .ok []
  | l :: ls =>
    if l = "" then parseLines ls
    else
      match splitAfterSpace l with
      | none => .error "invalid format"
      | some (a, b) =>
        if parseTime a then
          match parseLines ls with
          | .error e => .error e
          | .ok rest => .ok ((trimSpaces a, trimSpaces b) :: rest)
        else .error "invalid timecode"

/-- The whole timecode-parsing phase of `run` (main.go lines 127–156): the scan loop
followed by the emptiness check and the 999-entry ceiling. -/
def parseTimecodes (lines : List String) : Except String (List (String × String)) :=
  match parseLines lines with
  | .error e => .error e
  | .ok tcs =>
    if tcs.length = 0 then .error "no timecodes found"
    else if tcs.length > 999 then .error ("too many tracks: " ++ Nat.repr tcs.length)
    else .ok tcs

/-!
### The `track` record and the segmenter (`run`, main.go lines 158–178)

Go's zero-valued `End` field doubles as "absent": `ffmpegArgs` tests
`t.End == ""`.  Track numbers are the loop indices plus one, hence `Nat`.
-/

/-- The `track` struct of main.go.  `End = ""` means the end boundary is absent. -/
structure Track where
  Number : Nat
  Total : Nat
  Title : String
  Start : String
  End : String
  Artist : String
  Album : String
  deriving Repr, DecidableEq, Inhabited

/-- The track value appended for index `i` in the segmenter loop: `End` starts out as
Go's zero value `""`. -/
def segInit (timecodes : List (String × String)) (artist album : String) (i : Nat) : Track :=
  { Number := i + 1
    Total := timecodes.length
    Title := (timecodes.getD i ("", "")).2
    Start := (timecodes.getD i ("", "")).1
    End := ""
    Artist := artist
    Album := album }

/-- One iteration of the segmenter loop (main.go lines 160–178): append the track for
index `i`; when `i = 1` backpatch track 0's `End`; when `0 < i < n-1` set track `i`'s
`End` to the next timecode's time. -/
def segStep (timecodes : List (String × String)) (artist album : String)
    (tracks : List Track) (i : Nat) : List Track :=
  let tracks := tracks ++ [segInit timecodes artist album i]
  let tracks :=
    if i = 1 then
      tracks.set 0 { tracks.getD 0 default with End := (timecodes.getD 1 ("", "")).1 }
    else tracks
  if 0 < i ∧ i < timecodes.length - 1 then
    tracks.set i { tracks.getD i default with End := (timecodes.getD (i + 1) ("", "")).1 }
  else tracks

/-- The segmenter (main.go lines 158–178): fold the loop body over the indices of the
timecode list. -/
def segment (timecodes : List (String × String)) (artist album : String) : List Track :=
  (List.range timecodes.length).foldl (segStep timecodes artist album) []

/-!
### Naming and argument derivation (main.go lines 36–89)
-/

/-- Go `path/filepath.Ext` scanned from the end: first argument is the reversed path,
second the characters already passed (in original order).  Stops at a path separator;
returns the suffix from the last `'.'` of the final element. -/
def filepathExtAux : List Char → List Char → List Char
  | [], _ => []
  | c :: rest, acc =>
    if c = '/' then []
    else if c = '.' then c :: acc
    else filepathExtAux rest (c :: acc)

/-- Go `filepath.Ext(path)`: the suffix beginning at the final dot in the final
slash-separated element, empty if there is none. -/
def filepathExt (p : String) : String :=
  ⟨filepathExtAux p.data.reverse []⟩

/-- Go `fmt.Sprintf("%0Wd", n)` for a natural `n`: the decimal representation
left-padded with zeros to `width`. -/
def padNum (width n : Nat) : String :=
  let s := Nat.repr n
  if s.length < width then ⟨List.replicate (width - s.length) '0'⟩ ++ s else s

/-- Go `strings.Split(s, "/")` on a character list: the slash-separated groups. -/
def splitOnSlash : List Char → List (List Char)
  | [] => [[]]
  | c :: r =>
    match splitOnSlash r with
    | [] => [[]]
    | g :: gs => if c = '/' then [] :: g :: gs else (c :: g) :: gs

/-- Go `strings.Join(elems, "/")` on character lists. -/
def joinSlash : List (List Char) → List Char
  | [] => []
  | [e] => e
  | e :: es => e ++ '/' :: joinSlash es

/-- Go `path.Clean`'s element processing: skip empty and `"."` elements; on `".."`
pop a non-`".."` stack top, or (when not rooted) push `".."`; push everything else.
The stack is kept reversed. -/
def cleanElems : List (List Char) → List (List Char) → Bool → List (List Char)
  | [], st, _ => st.reverse
  | e :: es, st, rooted =>
    if e = [] ∨ e = ['.'] then cleanElems es st rooted
    else if e = ['.', '.'] then
      match st with
      | top :: rest =>
        if top = ['.', '.'] then cleanElems es (['.', '.'] :: top :: rest) rooted
        else cleanElems es rest rooted
      | [] => if rooted then cleanElems es [] rooted else cleanElems es [['.', '.']] rooted
    else cleanElems es (e :: st) rooted

/-- Go `path.Clean`: lexically simplify a slash-separated path; the empty path and a
path that cleans to nothing become `"."` (or `"/"` when rooted). -/
def pathClean (p : String) : String :=
  if p = "" then "."
  else
    let rooted : Bool := match p.data with | '/' :: _ => true | _ => false
    let body : List Char := joinSlash (cleanElems (splitOnSlash p.data) [] rooted)
    if rooted then ⟨'/' :: body⟩
    else if body = [] then "." else ⟨body⟩

/-- Go `path.Join`: empty when every element is empty, otherwise the elements from the
first non-empty one joined with `'/'` and cleaned (Go skips elements only while the
buffer is still empty). -/
def pathJoin (elems : List String) : String :=
  if elems.all (· = "") then ""
  else pathClean ⟨joinSlash ((elems.dropWhile (· = "")).map String.data)⟩

/-- The file-name component built by `outputFilename` (main.go lines 37–47):
`fmt.Sprintf(padFmt, t.Number, t.Title, filepath.Ext(audioFile))` where `padFmt` pads
to three digits when `t.Total > 99` and to two otherwise. -/
def Track.trackFileName (t : Track) (audioFile : String) : String :=
  padNum (if t.Total > 99 then 3 else 2) t.Number ++ " - " ++ t.Title ++ filepathExt audioFile

/-- `(*track).outputFilename` (main.go lines 36–49): `path.Join(t.Artist, t.Album, v)`. -/
def Track.outputFilename (t : Track) (audioFile : String) : String :=
  pathJoin [t.Artist, t.Album, t.trackFileName audioFile]

/-- `(*track).ffmpegArgs` (main.go lines 51–77). -/
def Track.ffmpegArgs (t : Track) (audioFile : String) : List String :=
  ["-nostdin", "-y", "-loglevel", "error"] ++
    (if t.End = "" then ["-ss", t.Start] else ["-ss", t.Start, "-to", t.End]) ++
    ["-i", audioFile, "-vn", "-c", "copy", "-f", "mp3", t.outputFilename audioFile]

/-- `(*track).eyeD3Args` (main.go lines 79–89): the string-valued fields are rendered
as `--field="value"` with literal double-quote characters inside the single argument;
track number and total are rendered bare. -/
def Track.eyeD3Args (t : Track) (audioFile : String) : List String :=
  ["--artist=\"" ++ t.Artist ++ "\"",
   "--album-artist=\"" ++ t.Artist ++ "\"",
   "--album=\"" ++ t.Album ++ "\"",
   "--title=\"" ++ t.Title ++ "\"",
   "--track=" ++ Nat.repr t.Number,
   "--track-total=" ++ Nat.repr t.Total,
   t.outputFilename audioFile]

/-!
### The orchestrator (`run`, main.go lines 110–199)

The filesystem and the two child processes are modelled by an `Env`: existence
and readability of the input files, the timecode file's scanner lines, whether
`os.MkdirAll` succeeds (and its error otherwise), and each collaborator's
result per track (`none` = exit 0, `some stderr` = failure, whose captured
stderr `execCommand` returns as the error).  The state-changing steps are
recorded as a trace of `Action`s.
-/

/-- A state-changing step of `run`: a directory creation or a child-process
invocation (command name and argument vector — `exec.Command` spawns directly,
without a shell). -/
inductive Action where
  | mkdir (p : String)
  | exec (cmd : String) (args : List String)
  deriving Repr, DecidableEq

/-- The per-track loop of `run` (main.go lines 185–196): for each track in order, run
`ffmpeg` with `ffmpegArgs`; on failure return its error at once; otherwise run `eyed3`
with `eyeD3Args`; on failure return its error at once. -/
def processTracks (audioFile : String) (cutRes tagRes : Track → Option String) :
    List Track → List Action × Except String Unit
  | [] => ([], .ok ())
  | t :: ts =>
    match cutRes t with
    | some e => ([.exec "ffmpeg" (t.ffmpegArgs audioFile)], .error e)
    | none =>
      match tagRes t with
      | some e =>
        ([.exec "ffmpeg" (t.ffmpegArgs audioFile), .exec "eyed3" (t.eyeD3Args audioFile)],
          .error e)
      | none =>
        let r := processTracks audioFile cutRes tagRes ts
        (.exec "ffmpeg" (t.ffmpegArgs audioFile) :: .exec "eyed3" (t.eyeD3Args audioFile) :: r.1,
          r.2)

/-- The environment `run` executes against. -/
structure Env where
  audioExists : Bool
  timecodesExists : Bool
  timecodesReadable : Bool
  timecodesLines : List String
  mkdirOk : Bool
  mkdirErr : String
  cutRes : Track → Option String
  tagRes : Track → Option String

/-- `run` (main.go lines 110–199): stat both inputs, open and parse the timecode
file, segment, create the `Artist/Album` directory, then process each track; the
result is the action trace and `run`'s returned error, if any. -/
def runModel (env : Env) (audioFile timecodesFile artist album : String) :
    List Action × Except String Unit :=
  if !env.audioExists then ([], .error "audio file not found")
  else if !env.timecodesExists then ([], .error "timecodes file not found")
  else if !env.timecodesReadable then ([], .error "cannot read timecodes file")
  else
    match parseTimecodes env.timecodesLines with
    | .error e => ([], .error e)
    | .ok tcs =>
      let tracks := segment tcs artist album
      if !env.mkdirOk then ([.mkdir (pathJoin [artist, album])], .error env.mkdirErr)
      else
        let r := processTracks audioFile env.cutRes env.tagRes tracks
        (.mkdir (pathJoin [artist, album]) :: r.1, r.2)

/-!
### Spec-side predicates

These definitions follow the specification's (and the claims') wording, to be
compared against the embedded code.
-/

/-- The action sequence of a fully successful run over a track list: for each track
in order, its `ffmpeg` cut invocation followed by its `eyed3` tag invocation. -/
def cutTagSeq (audioFile : String) (ts : List Track) : List Action :=
  ts.foldr
    (fun t acc =>
      .exec "ffmpeg" (t.ffmpegArgs audioFile) :: .exec "eyed3" (t.eyeD3Args audioFile) :: acc)
    []

/-- A non-blank line the scan loop rejects with `"invalid format"`: no space to split at. -/
def badFormatLine (l : String) : Bool :=
  l != "" && (splitAfterSpace l).isNone

/-- A non-blank line the scan loop rejects with `"invalid timecode"`: it splits, but
its time token fails `parseTime`. -/
def badTimeLine (l : String) : Bool :=
  l != "" &&
    (match splitAfterSpace l with
     | none => false
     | some (a, _) => !parseTime a)

/-- A line the scan loop accepts (or skips, when blank). -/
def goodLine (l : String) : Bool :=
  !badFormatLine l && !badTimeLine l

/-- Modelled from the claim's words (C6): a syntactically valid 24-hour `HH:MM:SS`
value with exactly two digits for each of hours, minutes and seconds, hours 00–23. -/
def specHHMMSS (s : String) : Bool :=
  match s.data with
  | [h1, h2, ':', m1, m2, ':', s1, s2] =>
    [h1, h2, m1, m2, s1, s2].all isDigitChar &&
      decide (10 * digitVal h1 + digitVal h2 < 24) &&
      decide (10 * digitVal m1 + digitVal m2 < 60) &&
      decide (10 * digitVal s1 + digitVal s2 < 60)
  | _ => false

/-- An acceptable hour token for `time.Parse("15:04:05", ·)`: one or two digits,
value below 24. -/
def goodHour (h : List Char) : Bool :=
  (h.length = 1 || h.length = 2) && h.all isDigitChar && decide (natOfDigits h < 24)

/-- An acceptable minute or second token: exactly two digits, value below 60. -/
def goodMinSec (m : List Char) : Bool :=
  m.length = 2 && m.all isDigitChar && decide (natOfDigits m < 60)

/-- What the code's time validation actually accepts (the amended C6): after trimming
spaces, a 1-or-2-digit hour below 24, a colon, two-digit minutes below 60, a colon,
two-digit seconds below 60, and an optional fractional-second tail. -/
def timeAcceptSpec (t : String) : Prop :=
  ∃ h m s f : List Char,
    (trimSpaces t).data = h ++ ':' :: (m ++ ':' :: (s ++ f)) ∧
    goodHour h = true ∧ goodMinSec m = true ∧ goodMinSec s = true ∧ parseFrac f = true

/-- The track the segmenter loop has produced for index `i` after processing the
first `k` indices: `End` is already set when index `i`'s backpatch step has run
(`i = 0` is patched during step 1, a middle `i` during its own step). -/
def segExpect (timecodes : List (String × String)) (artist album : String)
    (k i : Nat) : Track :=
  { Number := i + 1
    Total := timecodes.length
    Title := (timecodes.getD i ("", "")).2
    Start := (timecodes.getD i ("", "")).1
    End :=
      if (i = 0 ∧ 2 ≤ k) ∨ (1 ≤ i ∧ i + 1 < timecodes.length)
      then (timecodes.getD (i + 1) ("", "")).1 else ""
    Artist := artist
    Album := album }

/-! ## Helper lemmas: decimal rendering -/

theorem digitChar_digit : ∀ k < 10, isDigitChar (Nat.digitChar k) = true := by decide

theorem digitVal_digitChar : ∀ k < 10, digitVal (Nat.digitChar k) = k := by decide

theorem toDigitsCore_digits :
    ∀ (f n : Nat) (acc : List Char), (∀ c ∈ acc, isDigitChar c = true) →
      ∀ c ∈ Nat.toDigitsCore 10 f n acc, isDigitChar c = true := by
  intro f
  induction f with
  | zero => intro n acc hacc; simpa [Nat.toDigitsCore] using hacc
  | succ f ih =>
    intro n acc hacc c hc
    have hmod : isDigitChar (Nat.digitChar (n % 10)) = true :=
      digitChar_digit _ (Nat.mod_lt _ (by norm_num))
    simp only [Nat.toDigitsCore] at hc
    by_cases h0 : n / 10 = 0
    · rw [if_pos h0] at hc
      rcases List.mem_cons.mp hc with h | h
      · exact h ▸ hmod
      · exact hacc c h
    · rw [if_neg h0] at hc
      refine ih (n / 10) (Nat.digitChar (n % 10) :: acc) ?_ c hc
      intro d hd
      rcases List.mem_cons.mp hd with h | h
      · exact h ▸ hmod
      · exact hacc d h

theorem repr_data_digits (n : Nat) : ∀ c ∈ (Nat.repr n).data, isDigitChar c = true := by
  intro c hc
  exact toDigitsCore_digits (n + 1) n [] (by simp) c hc

theorem foldl_digits_init (l : List Char) :
    ∀ a : Nat, l.foldl (fun x c => 10 * x + digitVal c) a = a * 10 ^ l.length + natOfDigits l := by
  induction l with
  | nil => intro a; simp [natOfDigits]
  | cons c t ih =>
    intro a
    have h0 : natOfDigits (c :: t) =
        t.foldl (fun x d => 10 * x + digitVal d) (10 * 0 + digitVal c) := rfl
    have hcons : natOfDigits (c :: t) = digitVal c * 10 ^ t.length + natOfDigits t := by
      rw [h0, ih (10 * 0 + digitVal c)]
      ring
    simp only [List.foldl_cons]
    rw [ih (10 * a + digitVal c), hcons, List.length_cons, pow_succ]
    ring

theorem natOfDigits_cons (c : Char) (l : List Char) :
    natOfDigits (c :: l) = digitVal c * 10 ^ l.length + natOfDigits l := by
  have h0 : natOfDigits (c :: l) =
      l.foldl (fun x d => 10 * x + digitVal d) (10 * 0 + digitVal c) := rfl
  rw [h0, foldl_digits_init l (10 * 0 + digitVal c)]
  ring

theorem toDigitsCore_val :
    ∀ (f n : Nat), n < 10 ^ f → ∀ acc : List Char,
      natOfDigits (Nat.toDigitsCore 10 f n acc) = n * 10 ^ acc.length + natOfDigits acc := by
  intro f
  induction f with
  | zero =>
    intro n hn acc
    have : n = 0 := by simpa using hn
    subst this
    simp [Nat.toDigitsCore]
  | succ f ih =>
    intro n hn acc
    have hmod : digitVal (Nat.digitChar (n % 10)) = n % 10 :=
      digitVal_digitChar _ (Nat.mod_lt _ (by norm_num))
    simp only [Nat.toDigitsCore]
    by_cases h0 : n / 10 = 0
    · rw [if_pos h0]
      have hlt : n % 10 = n := by omega
      rw [natOfDigits_cons, hmod, hlt]
    · rw [if_neg h0]
      have hdiv : n / 10 < 10 ^ f := by
        rw [pow_succ, Nat.mul_comm] at hn
        exact Nat.div_lt_of_lt_mul hn
      rw [ih (n / 10) hdiv]
      rw [List.length_cons, natOfDigits_cons, hmod, pow_succ]
      have hn10 : 10 * (n / 10) + n % 10 = n := Nat.div_add_mod n 10
      conv_rhs => rw [← hn10]
      ring

theorem natOfDigits_repr (n : Nat) : natOfDigits (Nat.repr n).data = n := by
  have hlt : n < 10 ^ (n + 1) :=
    lt_of_lt_of_le (Nat.lt_pow_self (by norm_num) n)
      (Nat.pow_le_pow_right (by norm_num) (Nat.le_succ n))
  have h := toDigitsCore_val (n + 1) n hlt []
  simpa [natOfDigits] using h

theorem natOfDigits_replicate_zeros (z : Nat) (l : List Char) :
    natOfDigits (List.replicate z '0' ++ l) = natOfDigits l := by
  induction z with
  | zero => simp
  | succ z ih =>
    rw [List.replicate_succ, List.cons_append, natOfDigits_cons, ih]
    simp [digitVal]

theorem padNum_data (w n : Nat) :
    (padNum w n).data = List.replicate (w - (Nat.repr n).length) '0' ++ (Nat.repr n).data := by
  unfold padNum
  by_cases h : (Nat.repr n).length < w
  · rw [if_pos h, String.data_append]
  · rw [if_neg h]
    have : w - (Nat.repr n).length = 0 := by omega
    rw [this]
    simp

theorem padNum_length (w n : Nat) (h : (Nat.repr n).length ≤ w) :
    (padNum w n).length = w := by
  have hd := padNum_data w n
  have : (padNum w n).length = (padNum w n).data.length := rfl
  rw [this, hd, List.length_append, List.length_replicate]
  have : (Nat.repr n).data.length = (Nat.repr n).length := rfl
  omega

theorem padNum_digits (w n : Nat) : (padNum w n).data.all isDigitChar = true := by
  rw [padNum_data, List.all_append]
  refine Bool.and_eq_true_iff.mpr ⟨?_, ?_⟩
  · rw [List.all_eq_true]
    intro c hc
    rw [List.eq_of_mem_replicate hc]
    rfl
  · rw [List.all_eq_true]
    exact repr_data_digits n

theorem natOfDigits_padNum (w n : Nat) : natOfDigits (padNum w n).data = n := by
  rw [padNum_data, natOfDigits_replicate_zeros, natOfDigits_repr]

/-! ## C4: output filename padding -/

/-- C4: for every track satisfying the Track invariant `1 ≤ number ≤ total ≤ 999`, the
file-name component is a numeric field followed by `" - "`, the title, and the source
file's extension, where the numeric field is the track number zero-padded to exactly
2 digits when `total ≤ 99` and to exactly 3 digits when `total > 99`. -/
theorem trackFileName_padding (t : Track) (audioFile : String)
    (h1 : 1 ≤ t.Number) (h2 : t.Number ≤ t.Total) (h3 : t.Total ≤ 999) :
    ∃ num : String,
      t.trackFileName audioFile = num ++ " - " ++ t.Title ++ filepathExt audioFile ∧
      num.length = (if t.Total ≤ 99 then 2 else 3) ∧
      num.data.all isDigitChar = true ∧
      natOfDigits num.data = t.Number := by
  refine ⟨padNum (if t.Total > 99 then 3 else 2) t.Number, rfl, ?_, ?_, ?_⟩
  · by_cases h : t.Total > 99
    · have hle : t.Number < 10 ^ 3 := by
        have h1000 : (10 : Nat) ^ 3 = 1000 := by norm_num
        omega
      rw [if_pos h, if_neg (by omega : ¬ t.Total ≤ 99)]
      exact padNum_length 3 t.Number (Nat.repr_length t.Number 3 (by norm_num) hle)
    · have hle : t.Number < 10 ^ 2 := by
        have h100 : (10 : Nat) ^ 2 = 100 := by norm_num
        omega
      rw [if_neg h, if_pos (by omega : t.Total ≤ 99)]
      exact padNum_length 2 t.Number (Nat.repr_length t.Number 2 (by norm_num) hle)
  · exact padNum_digits _ _
  · exact natOfDigits_padNum _ _

/-- C4 witness: the claim's own examples — with `total = 5`, track 1 of `"Title"` from
an `.mp3` source yields `"01 - Title.mp3"`, and with `total = 150` it yields
`"001 - Title.mp3"`. -/
theorem trackFileName_padding_witness :
    (1 ≤ 1 ∧ (1 : Nat) ≤ 5 ∧ (5 : Nat) ≤ 999) ∧
    (∃ num : String,
      Track.trackFileName ⟨1, 5, "Title", "00:00:00", "", "A", "B"⟩ "song.mp3" =
        num ++ " - " ++ "Title" ++ filepathExt "song.mp3" ∧
      num.length = (if (5 : Nat) ≤ 99 then 2 else 3) ∧
      num.data.all isDigitChar = true ∧
      natOfDigits num.data = 1) ∧
    Track.trackFileName ⟨1, 5, "Title", "00:00:00", "", "A", "B"⟩ "song.mp3" =
      "01 - Title.mp3" ∧
    Track.trackFileName ⟨1, 150, "Title", "00:00:00", "", "A", "B"⟩ "song.mp3" =
      "001 - Title.mp3" :=
  ⟨⟨by decide, by decide, by decide⟩,
    trackFileName_padding ⟨1, 5, "Title", "00:00:00", "", "A", "B"⟩ "song.mp3"
      (by decide) (by decide) (by decide),
    by decide, by decide⟩

/-! ## C10: eyeD3 argument rendering -/

/-- C10: each string-valued tag argument is the single argument
`--field="value"` with the double-quote characters literal bytes of the argument
(`exec.Command` passes the argument vector directly, with no shell), while track
number and track total are rendered as bare unquoted decimal integers (no quote
character occurs in them). -/
theorem eyeD3Args_quoting (t : Track) (audioFile : String) :
    t.eyeD3Args audioFile =
      ["--artist=\"" ++ t.Artist ++ "\"",
       "--album-artist=\"" ++ t.Artist ++ "\"",
       "--album=\"" ++ t.Album ++ "\"",
       "--title=\"" ++ t.Title ++ "\"",
       "--track=" ++ Nat.repr t.Number,
       "--track-total=" ++ Nat.repr t.Total,
       t.outputFilename audioFile] ∧
    (∀ v : String, ('"' ∈ v.data → False) →
      ("--artist=\"" ++ v ++ "\"").data.count '"' = 2) ∧
    ('"' ∈ ("--track=" ++ Nat.repr t.Number).data → False) ∧
    ('"' ∈ ("--track-total=" ++ Nat.repr t.Total).data → False) := by
  refine ⟨rfl, ?_, ?_, ?_⟩
  · intro v hv
    rw [String.data_append, String.data_append, List.count_append, List.count_append]
    have hv0 : v.data.count '"' = 0 := List.count_eq_zero.mpr hv
    rw [hv0]
    decide
  · intro hq
    rw [String.data_append] at hq
    rcases List.mem_append.mp hq with h | h
    · exact absurd h (by decide)
    · have := repr_data_digits t.Number '"' h
      exact absurd this (by decide)
  · intro hq
    rw [String.data_append] at hq
    rcases List.mem_append.mp hq with h | h
    · exact absurd h (by decide)
    · have := repr_data_digits t.Total '"' h
      exact absurd this (by decide)

/-! ## C5: strict sequencing and abort on first failure -/

theorem cutTagSeq_cons (audioFile : String) (t : Track) (ts : List Track) :
    cutTagSeq audioFile (t :: ts) =
      .exec "ffmpeg" (t.ffmpegArgs audioFile) :: .exec "eyed3" (t.eyeD3Args audioFile) ::
        cutTagSeq audioFile ts := rfl

/-- C5: tracks are processed strictly sequentially in list order (ascending number
order for the segmenter's output), cut before tag for each track, aborting on the
first collaborator failure: a track whose cut fails produces no tag invocation and no
later invocations; a failing tag stops all later tracks; and when every invocation
succeeds the trace is exactly cut-then-tag for each track in order. -/
theorem processTracks_sequential_abort (audioFile : String)
    (cutRes tagRes : Track → Option String) :
    (∀ ts : List Track, (∀ t ∈ ts, cutRes t = none ∧ tagRes t = none) →
      processTracks audioFile cutRes tagRes ts = (cutTagSeq audioFile ts, .ok ())) ∧
    (∀ (pre : List Track) (t : Track) (rest : List Track) (e : String),
      (∀ u ∈ pre, cutRes u = none ∧ tagRes u = none) → cutRes t = some e →
      processTracks audioFile cutRes tagRes (pre ++ t :: rest) =
        (cutTagSeq audioFile pre ++ [.exec "ffmpeg" (t.ffmpegArgs audioFile)], .error e)) ∧
    (∀ (pre : List Track) (t : Track) (rest : List Track) (e : String),
      (∀ u ∈ pre, cutRes u = none ∧ tagRes u = none) → cutRes t = none → tagRes t = some e →
      processTracks audioFile cutRes tagRes (pre ++ t :: rest) =
        (cutTagSeq audioFile pre ++
          [.exec "ffmpeg" (t.ffmpegArgs audioFile), .exec "eyed3" (t.eyeD3Args audioFile)],
          .error e)) := by
  refine ⟨?_, ?_, ?_⟩
  · intro ts
    induction ts with
    | nil => intro _; rfl
    | cons t ts ih =>
      intro h
      have ht := h t (List.mem_cons_self t ts)
      have hts := ih fun u hu => h u (List.mem_cons_of_mem t hu)
      rw [processTracks, ht.1, ht.2, hts, cutTagSeq_cons]
  · intro pre
    induction pre with
    | nil =>
      intro t rest e _ hcut
      rw [List.nil_append, processTracks, hcut]
      rfl
    | cons u pre ih =>
      intro t rest e h hcut
      have hu := h u (List.mem_cons_self u pre)
      have hpre := ih t rest e (fun v hv => h v (List.mem_cons_of_mem u hv)) hcut
      rw [List.cons_append, processTracks, hu.1, hu.2, hpre, cutTagSeq_cons]
      rfl
  · intro pre
    induction pre with
    | nil =>
      intro t rest e _ hcut htag
      rw [List.nil_append, processTracks, hcut, htag]
      rfl
    | cons u pre ih =>
      intro t rest e h hcut htag
      have hu := h u (List.mem_cons_self u pre)
      have hpre := ih t rest e (fun v hv => h v (List.mem_cons_of_mem u hv)) hcut htag
      rw [List.cons_append, processTracks, hu.1, hu.2, hpre, cutTagSeq_cons]
      rfl

/-- C5 witness: two concrete tracks whose first cut fails — only the first `ffmpeg`
invocation appears in the trace. -/
theorem processTracks_sequential_abort_witness :
    ((∀ u ∈ ([] : List Track), (fun _ : Track => some "boom") u = none ∧
        (fun _ : Track => (none : Option String)) u = none) ∧
      (fun _ : Track => some "boom") (⟨1, 2, "A", "0", "1", "X", "Y"⟩ : Track) = some "boom") ∧
    processTracks "a.mp3" (fun _ => some "boom") (fun _ => none)
        ([] ++ (⟨1, 2, "A", "0", "1", "X", "Y"⟩ : Track) :: [⟨2, 2, "B", "1", "", "X", "Y"⟩]) =
      (cutTagSeq "a.mp3" [] ++
        [.exec "ffmpeg" ((⟨1, 2, "A", "0", "1", "X", "Y"⟩ : Track).ffmpegArgs "a.mp3")],
        .error "boom") :=
  ⟨⟨fun u hu => absurd hu (List.not_mem_nil u), rfl⟩,
    (processTracks_sequential_abort "a.mp3" (fun _ => some "boom") (fun _ => none)).2.1
      [] ⟨1, 2, "A", "0", "1", "X", "Y"⟩ [⟨2, 2, "B", "1", "", "X", "Y"⟩] "boom"
      (fun u hu => absurd hu (List.not_mem_nil u)) rfl⟩

/-! ## C9: all validation precedes any state-changing step -/

/-- C9: if `run` fails input validation, reading, or parsing (missing audio file,
missing or unreadable timecodes file, invalid format, invalid timecode, no
timecodes, too many tracks), the action trace is empty — no directory creation is
attempted and neither collaborator is invoked; conversely a non-empty trace means
every validation and the whole parse succeeded. -/
theorem runModel_validates_first (env : Env) (audioFile timecodesFile artist album : String) :
    ((runModel env audioFile timecodesFile artist album).1 ≠ [] →
      env.audioExists = true ∧ env.timecodesExists = true ∧ env.timecodesReadable = true ∧
      ∃ es, parseTimecodes env.timecodesLines = .ok es) ∧
    (∀ e, parseTimecodes env.timecodesLines = .error e →
      (runModel env audioFile timecodesFile artist album).1 = []) := by
  constructor
  · intro htrace
    unfold runModel at htrace
    by_cases ha : env.audioExists
    · by_cases ht : env.timecodesExists
      · by_cases hr : env.timecodesReadable
        · refine ⟨ha, ht, hr, ?_⟩
          rw [ha, ht, hr] at htrace
          simp only [Bool.not_true, Bool.false_eq_true, if_false] at htrace
          cases hp : parseTimecodes env.timecodesLines with
          | error e => rw [hp] at htrace; simp at htrace
          | ok es => exact ⟨es, rfl⟩
        · rw [Bool.not_eq_true] at hr
          rw [ha, ht, hr] at htrace
          simp at htrace
      · rw [Bool.not_eq_true] at ht
        rw [ht] at htrace
        by_cases ha2 : env.audioExists <;> simp [ha2] at htrace
    · rw [Bool.not_eq_true] at ha
      rw [ha] at htrace
      simp at htrace
  · intro e hp
    unfold runModel
    by_cases ha : env.audioExists
    · by_cases ht : env.timecodesExists
      · by_cases hr : env.timecodesReadable
        · rw [ha, ht, hr, hp]
          simp
        · rw [Bool.not_eq_true] at hr
          rw [ha, ht, hr]
          simp
      · rw [Bool.not_eq_true] at ht
        rw [ha, ht]
        simp
    · rw [Bool.not_eq_true] at ha
      rw [ha]
      simp

/-- C9 witness: a parse error (a line with no space) yields an empty action trace. -/
theorem runModel_validates_first_witness :
    parseTimecodes ["badline"] = .error "invalid format" ∧
    (runModel ⟨true, true, true, ["badline"], true, "", fun _ => none, fun _ => none⟩
        "a.mp3" "t.txt" "Ar" "Al").1 = [] :=
  ⟨rfl,
    (runModel_validates_first
        ⟨true, true, true, ["badline"], true, "", fun _ => none, fun _ => none⟩
        "a.mp3" "t.txt" "Ar" "Al").2 "invalid format" rfl⟩

/-! ## Concrete counterexamples -/

/-- C2 counterexample: for a `.flac` source the derived ffmpeg invocation still
forces the `mp3` container (`-f mp3`), while the output filename's extension —
copied verbatim from the source — is `.flac`; the container is NOT the one implied
by the chosen output extension. -/
theorem ffmpegArgs_forces_mp3 :
    (⟨1, 1, "X", "00:00:00", "", "A", "B"⟩ : Track).ffmpegArgs "song.flac" =
      ["-nostdin", "-y", "-loglevel", "error", "-ss", "00:00:00",
       "-i", "song.flac", "-vn", "-c", "copy", "-f", "mp3", "A/B/01 - X.flac"] ∧
    filepathExt "song.flac" = ".flac" :=
  ⟨rfl, rfl⟩

/-- C3 counterexample: the line `"00:00:00\tIntro"` has a whitespace separator (a
tab), a valid time token and a non-empty title, yet parsing fails; and the
`"invalid format"` error is a fixed string that does not name the offending line
(two different offending lines produce the identical error). -/
theorem parse_tab_separator_rejected :
    parseTimecodes ["00:00:00\tIntro"] = .error "invalid format" ∧
    parseTime "00:00:00" = true ∧ ("Intro" : String) ≠ "" ∧
    parseTimecodes ["zz"] = .error "invalid format" ∧
    parseTimecodes ["qq"] = .error "invalid format" :=
  ⟨rfl, by decide, by decide, rfl, rfl⟩

/-- C6 counterexample: `"3:04:05"` (a one-digit hour, not of the form `HH:MM:SS`
with exactly two hour digits) is accepted by the code's time validation. -/
theorem parseTime_accepts_one_digit_hour :
    parseTime "3:04:05" = true ∧ specHHMMSS "3:04:05" = false ∧
    trimSpaces "3:04:05" = "3:04:05" := by
  refine ⟨by decide, by decide, by decide⟩

/-- C7 counterexample: in `"00:00:00 \tX"` the first whitespace run is `" \t"`, so
the claim predicts title `"X"`; the code splits at the first space only and trims
only spaces, producing the title `"\tX"` with its leading tab intact. -/
theorem parse_title_keeps_tab :
    parseLines ["00:00:00 \tX"] = .ok [("00:00:00", "\tX")] ∧
    trimSpaces "\tX" = "\tX" ∧ ("\tX" : String) ≠ "X" ∧ ('\t').isWhitespace = true :=
  ⟨rfl, by decide, by decide, by decide⟩

/-- C8 counterexample: the parser accepts the line `"00:00:00 "` and produces an
entry whose title is empty. -/
theorem parse_accepts_empty_title :
    parseTimecodes ["00:00:00 "] = .ok [("00:00:00", "")] ∧ trimSpaces "" = "" :=
  ⟨rfl, by decide⟩

/-! ## C1: the segmenter -/

theorem segExpect_Number (tcs : List (String × String)) (artist album : String) (k i : Nat) :
    (segExpect tcs artist album k i).Number = i + 1 := rfl

theorem segExpect_Total (tcs : List (String × String)) (artist album : String) (k i : Nat) :
    (segExpect tcs artist album k i).Total = tcs.length := rfl

theorem segExpect_Start (tcs : List (String × String)) (artist album : String) (k i : Nat) :
    (segExpect tcs artist album k i).Start = (tcs.getD i ("", "")).1 := rfl

theorem segExpect_End (tcs : List (String × String)) (artist album : String) (k i : Nat) :
    (segExpect tcs artist album k i).End =
      (if (i = 0 ∧ 2 ≤ k) ∨ (1 ≤ i ∧ i + 1 < tcs.length)
       then (tcs.getD (i + 1) ("", "")).1 else "") := rfl

theorem segExpect_stable (tcs : List (String × String)) (artist album : String)
    (k i : Nat) (h2 : 2 ≤ k) :
    segExpect tcs artist album (k + 1) i = segExpect tcs artist album k i := by
  unfold segExpect
  have hcond : ((i = 0 ∧ 2 ≤ k + 1) ∨ (1 ≤ i ∧ i + 1 < tcs.length)) ↔
      ((i = 0 ∧ 2 ≤ k) ∨ (1 ≤ i ∧ i + 1 < tcs.length)) := by
    constructor
    · rintro (⟨h0, _⟩ | hc)
      · exact Or.inl ⟨h0, h2⟩
      · exact Or.inr hc
    · rintro (⟨h0, _⟩ | hc)
      · exact Or.inl ⟨h0, by omega⟩
      · exact Or.inr hc
  rw [if_congr hcond rfl rfl]

theorem segment_invariant (tcs : List (String × String)) (artist album : String) :
    ∀ k, k ≤ tcs.length →
      (List.range k).foldl (segStep tcs artist album) [] =
        (List.range k).map (segExpect tcs artist album k) := by
  intro k
  induction k with
  | zero => intro _; rfl
  | succ k ih =>
    intro hk
    have hk0 : k ≤ tcs.length := Nat.le_of_succ_le hk
    rw [List.range_succ, List.foldl_append, ih hk0, List.foldl_cons, List.foldl_nil,
      List.map_append, List.map_cons, List.map_nil]
    by_cases hkz : k = 0
    · subst hkz
      have hno : ¬ ((0 : Nat) < 0 ∧ 0 < tcs.length - 1) := by omega
      simp [segStep, segInit, segExpect, hno]
    · by_cases hko : k = 1
      · subst hko
        by_cases hn : 1 < tcs.length - 1
        · have h2n : 1 + 1 < tcs.length := by omega
          simp [segStep, segInit, segExpect, hn, h2n,
            show List.range 1 = [0] from rfl]
        · have h2n : ¬ (1 + 1 < tcs.length) := by omega
          simp [segStep, segInit, segExpect, hn, h2n,
            show List.range 1 = [0] from rfl]
      · have h2 : 2 ≤ k := by omega
        have hmap : (List.range k).map (segExpect tcs artist album k) =
            (List.range k).map (segExpect tcs artist album (k + 1)) :=
          List.map_congr_left fun i _ => (segExpect_stable tcs artist album k i h2).symm
        rw [hmap]
        have hlen : ((List.range k).map (segExpect tcs artist album (k + 1))).length = k := by
          rw [List.length_map, List.length_range]
        simp only [segStep]
        rw [if_neg (by omega : ¬ k = 1)]
        by_cases hkn : k < tcs.length - 1
        · rw [if_pos ⟨by omega, hkn⟩]
          rw [List.getD_append_right _ _ _ _ (by omega), hlen, Nat.sub_self,
            List.getD_cons_zero]
          rw [List.set_append_right _ _ (by omega), hlen, Nat.sub_self,
            List.set_cons_zero]
          have hek : segExpect tcs artist album (k + 1) k =
              { segInit tcs artist album k with End := (tcs.getD (k + 1) ("", "")).1 } := by
            unfold segExpect segInit
            rw [if_pos (Or.inr ⟨by omega, by omega⟩)]
          rw [hek]
        · rw [if_neg (fun hc => hkn hc.2)]
          have hek : segExpect tcs artist album (k + 1) k = segInit tcs artist album k := by
            unfold segExpect segInit
            rw [if_neg (by omega : ¬ ((k = 0 ∧ 2 ≤ k + 1) ∨ (1 ≤ k ∧ k + 1 < tcs.length)))]
          rw [hek]

theorem segment_getD (tcs : List (String × String)) (artist album : String)
    (i : Nat) (hi : i < tcs.length) :
    (segment tcs artist album).getD i default =
      segExpect tcs artist album tcs.length i := by
  unfold segment
  rw [segment_invariant tcs artist album tcs.length le_rfl]
  rw [List.getD_eq_getElem _ _ (by rw [List.length_map, List.length_range]; exact hi)]
  rw [List.getElem_map, List.getElem_range]

/-- C1: for every timecode list of length `n` with `1 ≤ n ≤ 999`, the segmenter
produces exactly `n` tracks, numbered `1..n` contiguously, each with `total = n`;
the boundaries are contiguous — for every `i ≤ n-2`, track `i`'s `end` equals track
`i+1`'s `start` — and the last track's `end` is absent (the empty string), including
the `n = 1` case. -/
theorem segment_tracks_contiguous (tcs : List (String × String)) (artist album : String)
    (h1 : 1 ≤ tcs.length) (h2 : tcs.length ≤ 999) :
    (segment tcs artist album).length = tcs.length ∧
    (∀ i, i < tcs.length →
      ((segment tcs artist album).getD i default).Number = i + 1 ∧
      ((segment tcs artist album).getD i default).Total = tcs.length) ∧
    (∀ i, i + 1 < tcs.length →
      ((segment tcs artist album).getD i default).End =
        ((segment tcs artist album).getD (i + 1) default).Start) ∧
    ((segment tcs artist album).getD (tcs.length - 1) default).End = "" := by
  refine ⟨?_, ?_, ?_, ?_⟩
  · unfold segment
    rw [segment_invariant tcs artist album tcs.length le_rfl, List.length_map,
      List.length_range]
  · intro i hi
    rw [segment_getD tcs artist album i hi]
    exact ⟨segExpect_Number tcs artist album tcs.length i,
      segExpect_Total tcs artist album tcs.length i⟩
  · intro i hi
    rw [segment_getD tcs artist album i (by omega), segment_getD tcs artist album (i + 1) hi]
    rw [segExpect_End, segExpect_Start]
    rcases Nat.eq_zero_or_pos i with h0 | h0
    · subst h0
      rw [if_pos (Or.inl ⟨rfl, by omega⟩)]
    · rw [if_pos (Or.inr ⟨h0, hi⟩)]
  · rw [segment_getD tcs artist album (tcs.length - 1) (by omega), segExpect_End]
    rw [if_neg (by omega :
      ¬ ((tcs.length - 1 = 0 ∧ 2 ≤ tcs.length) ∨
        (1 ≤ tcs.length - 1 ∧ tcs.length - 1 + 1 < tcs.length)))]

/-- C1 witness: the two-entry list `00:00:00 Intro`, `00:03:15 Track Two`. -/
theorem segment_tracks_contiguous_witness :
    (1 ≤ ([("00:00:00", "Intro"), ("00:03:15", "Track Two")] : List (String × String)).length ∧
      ([("00:00:00", "Intro"), ("00:03:15", "Track Two")] : List (String × String)).length ≤
        999) ∧
    ((segment [("00:00:00", "Intro"), ("00:03:15", "Track Two")] "A" "B").length =
      ([("00:00:00", "Intro"), ("00:03:15", "Track Two")] : List (String × String)).length ∧
    (∀ i, i < ([("00:00:00", "Intro"), ("00:03:15", "Track Two")] :
        List (String × String)).length →
      ((segment [("00:00:00", "Intro"), ("00:03:15", "Track Two")] "A" "B").getD i
          default).Number = i + 1 ∧
      ((segment [("00:00:00", "Intro"), ("00:03:15", "Track Two")] "A" "B").getD i
          default).Total =
        ([("00:00:00", "Intro"), ("00:03:15", "Track Two")] : List (String × String)).length) ∧
    (∀ i, i + 1 < ([("00:00:00", "Intro"), ("00:03:15", "Track Two")] :
        List (String × String)).length →
      ((segment [("00:00:00", "Intro"), ("00:03:15", "Track Two")] "A" "B").getD i
          default).End =
        ((segment [("00:00:00", "Intro"), ("00:03:15", "Track Two")] "A" "B").getD (i + 1)
          default).Start) ∧
    ((segment [("00:00:00", "Intro"), ("00:03:15", "Track Two")] "A" "B").getD
        (([("00:00:00", "Intro"), ("00:03:15", "Track Two")] :
          List (String × String)).length - 1) default).End = "") :=
  ⟨⟨by decide, by decide⟩,
    segment_tracks_contiguous [("00:00:00", "Intro"), ("00:03:15", "Track Two")] "A" "B"
      (by decide) (by decide)⟩

/-! ## Trimming and splitting lemmas -/

theorem splitAfterSpaceL_no_space (a : List Char) (ha : ∀ c ∈ a, c ≠ ' ') (b : List Char) :
    splitAfterSpaceL (a ++ ' ' :: b) = some (a ++ [' '], b) := by
  induction a with
  | nil => simp [splitAfterSpaceL]
  | cons c t ih =>
    have hc : c ≠ ' ' := ha c (List.mem_cons_self c t)
    rw [List.cons_append, splitAfterSpaceL]
    rw [if_neg hc, ih fun d hd => ha d (List.mem_cons_of_mem c hd)]
    rfl

theorem dropWhile_getLast (p : Char → Bool) (x : List Char) (h : List.dropWhile p x ≠ []) :
    (List.dropWhile p x).getLast? = x.getLast? := by
  induction x with
  | nil => simp [List.dropWhile] at h
  | cons c t ih =>
    by_cases hp : p c = true
    · rw [List.dropWhile_cons_of_pos hp] at h ⊢
      have ht : t ≠ [] := by
        intro he
        subst he
        simp [List.dropWhile] at h
      obtain ⟨d, ts, rfl⟩ := List.exists_cons_of_ne_nil ht
      rw [ih h, List.getLast?_cons_cons]
    · rw [List.dropWhile_cons_of_neg hp]

theorem dropWhile_head_not (p : Char → Bool) (x : List Char) (c : Char)
    (h : (List.dropWhile p x).head? = some c) : p c = false := by
  have := List.head?_dropWhile_not p x
  rw [h] at this
  exact this

/-- A character list whose first and last elements are not spaces is unchanged by
trimming. -/
theorem trimSpacesL_fixed (l : List Char)
    (hh : ∀ c, l.head? = some c → c ≠ ' ') (hl : ∀ c, l.getLast? = some c → c ≠ ' ') :
    trimSpacesL l = l := by
  unfold trimSpacesL
  have h1 : l.dropWhile (fun c => c = ' ') = l := by
    cases l with
    | nil => rfl
    | cons c t =>
      have hc : c ≠ ' ' := hh c rfl
      exact List.dropWhile_cons_of_neg (by simpa using hc)
  rw [h1]
  have h2 : l.reverse.dropWhile (fun c => c = ' ') = l.reverse := by
    cases hrev : l.reverse with
    | nil => rfl
    | cons c t =>
      have hc : c ≠ ' ' := by
        refine hl c ?_
        rw [← List.head?_reverse, hrev]
        rfl
      exact List.dropWhile_cons_of_neg (by simpa using hc)
  rw [h2, List.reverse_reverse]

theorem trimSpacesL_head (l : List Char) (c : Char)
    (h : (trimSpacesL l).head? = some c) : c ≠ ' ' := by
  unfold trimSpacesL at h
  rw [List.head?_reverse] at h
  intro hc
  subst hc
  set m := (l.dropWhile (fun c => c = ' ')).reverse with hm
  have hne : m.dropWhile (fun c => c = ' ') ≠ [] := by
    intro he
    rw [he] at h
    simp at h
  rw [dropWhile_getLast _ _ hne] at h
  rw [hm, List.getLast?_reverse] at h
  have := dropWhile_head_not (fun c => c = ' ') l ' ' h
  simp at this

theorem trimSpacesL_last (l : List Char) (c : Char)
    (h : (trimSpacesL l).getLast? = some c) : c ≠ ' ' := by
  unfold trimSpacesL at h
  rw [List.getLast?_reverse] at h
  intro hc
  subst hc
  have := dropWhile_head_not (fun c => c = ' ') (l.dropWhile (fun c => c = ' ')).reverse ' ' h
  simp at this

theorem trimSpacesL_idem (l : List Char) : trimSpacesL (trimSpacesL l) = trimSpacesL l :=
  trimSpacesL_fixed _ (trimSpacesL_head l) (trimSpacesL_last l)

theorem trimSpaces_idem (s : String) : trimSpaces (trimSpaces s) = trimSpaces s := by
  unfold trimSpaces
  rw [trimSpacesL_idem]

theorem trimSpacesL_append_space (l : List Char) : trimSpacesL (l ++ [' ']) = trimSpacesL l := by
  unfold trimSpacesL
  rw [List.dropWhile_append]
  by_cases hemp : (l.dropWhile (fun c => c = ' ')).isEmpty = true
  · rw [if_pos hemp]
    rw [List.isEmpty_iff.mp hemp]
    rfl
  · rw [if_neg hemp]
    rw [List.reverse_append]
    rw [show (([' '] : List Char).reverse ++ (l.dropWhile (fun c => c = ' ')).reverse) =
      ' ' :: (l.dropWhile (fun c => c = ' ')).reverse from rfl]
    rw [List.dropWhile_cons_of_pos (by rfl)]

/-! ## Scan-loop equation lemmas -/

theorem parseLines_cons_blank (ls : List String) : parseLines ("" :: ls) = parseLines ls := by
  simp [parseLines]

theorem parseLines_cons_bad_format (l : String) (ls : List String)
    (h : badFormatLine l = true) : parseLines (l :: ls) = .error "invalid format" := by
  unfold badFormatLine at h
  rw [Bool.and_eq_true] at h
  have hne : l ≠ "" := by simpa using h.1
  have hnone : splitAfterSpace l = none := Option.isNone_iff_eq_none.mp h.2
  simp [parseLines, hne, hnone]

theorem badTimeLine_shape (l : String) (h : badTimeLine l = true) :
    l ≠ "" ∧ ∃ a b, splitAfterSpace l = some (a, b) ∧ parseTime a = false := by
  unfold badTimeLine at h
  rw [Bool.and_eq_true] at h
  refine ⟨by simpa using h.1, ?_⟩
  rcases hs : splitAfterSpace l with _ | ⟨a, b⟩
  · rw [hs] at h
    exact absurd h.2 (by simp)
  · refine ⟨a, b, rfl, ?_⟩
    rw [hs] at h
    have := h.2
    simp at this
    exact this

theorem parseLines_cons_bad_time (l : String) (ls : List String)
    (h : badTimeLine l = true) : parseLines (l :: ls) = .error "invalid timecode" := by
  obtain ⟨hne, a, b, hs, hp⟩ := badTimeLine_shape l h
  simp [parseLines, hne, hs, hp]

theorem goodLine_shape (l : String) (hg : goodLine l = true) (hne : l ≠ "") :
    ∃ a b, splitAfterSpace l = some (a, b) ∧ parseTime a = true := by
  unfold goodLine at hg
  rw [Bool.and_eq_true] at hg
  rcases hs : splitAfterSpace l with _ | ⟨a, b⟩
  · exfalso
    have hb : badFormatLine l = true := by
      unfold badFormatLine
      rw [Bool.and_eq_true]
      exact ⟨by simpa using hne, by rw [hs]; rfl⟩
    rw [hb] at hg
    exact absurd hg.1 (by simp)
  · refine ⟨a, b, rfl, ?_⟩
    by_cases hp : parseTime a = true
    · exact hp
    · exfalso
      have hb : badTimeLine l = true := by
        unfold badTimeLine
        rw [Bool.and_eq_true]
        refine ⟨by simpa using hne, ?_⟩
        rw [hs]
        simpa using hp
      rw [hb] at hg
      exact absurd hg.2 (by simp)

theorem parseLines_cons_good (l : String) (ls : List String) (a b : String)
    (hne : l ≠ "") (hs : splitAfterSpace l = some (a, b)) (hp : parseTime a = true) :
    parseLines (l :: ls) =
      match parseLines ls with
      | .error e => .error e
      | .ok rest => .ok ((trimSpaces a, trimSpaces b) :: rest) := by
  simp [parseLines, hne, hs, hp]

theorem goodLine_blank : goodLine "" = true := rfl

theorem goodLine_of_parts (l : String) (a b : String)
    (hs : splitAfterSpace l = some (a, b)) (hp : parseTime a = true) :
    goodLine l = true := by
  unfold goodLine badFormatLine badTimeLine
  rw [hs]
  simp [hp]

/-- A successful scan is exactly: every line is blank or accepted. -/
theorem parseLines_ok_iff (lines : List String) :
    (∃ es, parseLines lines = .ok es) ↔ ∀ l ∈ lines, goodLine l = true := by
  induction lines with
  | nil => simp [parseLines]
  | cons l ls ih =>
    constructor
    · rintro ⟨es, hes⟩
      intro u hu
      by_cases hne : l = ""
      · subst hne
        rw [parseLines_cons_blank] at hes
        rcases List.mem_cons.mp hu with h | h
        · subst h; exact goodLine_blank
        · exact ih.mp ⟨es, hes⟩ u h
      · rcases hs : splitAfterSpace l with _ | ⟨a, b⟩
        · rw [parseLines_cons_bad_format l ls (by
            unfold badFormatLine
            rw [Bool.and_eq_true]
            exact ⟨by simpa using hne, by rw [hs]; rfl⟩)] at hes
          exact absurd hes (by simp)
        · by_cases hp : parseTime a = true
          · rw [parseLines_cons_good l ls a b hne hs hp] at hes
            rcases hrec : parseLines ls with e | rest
            · rw [hrec] at hes
              exact absurd hes (by simp)
            · rcases List.mem_cons.mp hu with h | h
              · subst h; exact goodLine_of_parts u a b hs hp
              · exact ih.mp ⟨rest, hrec⟩ u h
          · rw [parseLines_cons_bad_time l ls (by
              unfold badTimeLine
              rw [Bool.and_eq_true]
              refine ⟨by simpa using hne, ?_⟩
              rw [hs]
              simpa using hp)] at hes
            exact absurd hes (by simp)
    · intro hall
      by_cases hne : l = ""
      · subst hne
        rw [parseLines_cons_blank]
        exact ih.mpr fun u hu => hall u (List.mem_cons_of_mem _ hu)
      · obtain ⟨a, b, hs, hp⟩ :=
          goodLine_shape l (hall l (List.mem_cons_self l ls)) hne
        obtain ⟨es, hes⟩ := ih.mpr fun u hu => hall u (List.mem_cons_of_mem _ hu)
        refine ⟨(trimSpaces a, trimSpaces b) :: es, ?_⟩
        rw [parseLines_cons_good l ls a b hne hs hp, hes]

/-- Each accepted entry counts one non-blank line. -/
theorem parseLines_count (lines : List String) :
    ∀ es, parseLines lines = .ok es →
      es.length = (lines.filter (fun l => l != "")).length := by
  induction lines with
  | nil =>
    intro es hes
    simp only [parseLines] at hes
    have hnil : ([] : List (String × String)) = es := Except.ok.inj hes
    subst hnil
    rfl
  | cons l ls ih =>
    intro es hes
    by_cases hne : l = ""
    · subst hne
      rw [parseLines_cons_blank] at hes
      rw [List.filter_cons_of_neg (by simp)]
      exact ih es hes
    · rcases hs : splitAfterSpace l with _ | ⟨a, b⟩
      · rw [parseLines_cons_bad_format l ls (by
          unfold badFormatLine
          rw [Bool.and_eq_true]
          exact ⟨by simpa using hne, by rw [hs]; rfl⟩)] at hes
        exact absurd hes (by simp)
      · by_cases hp : parseTime a = true
        · rw [parseLines_cons_good l ls a b hne hs hp] at hes
          rcases hrec : parseLines ls with e | rest
          · rw [hrec] at hes
            exact absurd hes (by simp)
          · rw [hrec] at hes
            have hes2 : (trimSpaces a, trimSpaces b) :: rest = es := Except.ok.inj hes
            subst hes2
            rw [List.filter_cons_of_pos (by simpa using hne)]
            rw [List.length_cons, List.length_cons, ih rest hrec]
        · rw [parseLines_cons_bad_time l ls (by
            unfold badTimeLine
            rw [Bool.and_eq_true]
            refine ⟨by simpa using hne, ?_⟩
            rw [hs]
            simpa using hp)] at hes
          exact absurd hes (by simp)

/-- Blank lines are skipped entirely: inserting one changes nothing. -/
theorem parseLines_blank_skip (l1 l2 : List String) :
    parseLines (l1 ++ "" :: l2) = parseLines (l1 ++ l2) := by
  induction l1 with
  | nil => rw [List.nil_append, List.nil_append, parseLines_cons_blank]
  | cons l ls ih =>
    rw [List.cons_append, List.cons_append]
    by_cases hne : l = ""
    · subst hne
      rw [parseLines_cons_blank, parseLines_cons_blank]
      exact ih
    · rcases hs : splitAfterSpace l with _ | ⟨a, b⟩
      · have hb : badFormatLine l = true := by
          unfold badFormatLine
          rw [Bool.and_eq_true]
          exact ⟨by simpa using hne, by rw [hs]; rfl⟩
        rw [parseLines_cons_bad_format l _ hb, parseLines_cons_bad_format l _ hb]
      · by_cases hp : parseTime a = true
        · rw [parseLines_cons_good l _ a b hne hs hp, parseLines_cons_good l _ a b hne hs hp,
            ih]
        · have hb : badTimeLine l = true := by
            unfold badTimeLine
            rw [Bool.and_eq_true]
            refine ⟨by simpa using hne, ?_⟩
            rw [hs]
            simpa using hp
          rw [parseLines_cons_bad_time l _ hb, parseLines_cons_bad_time l _ hb]

/-! ## C7: split at the first space -/

/-- C7 (amended): each non-blank line is split into exactly two parts at its FIRST
SPACE character (U+0020) — not at a run of arbitrary whitespace: everything before
the space is the candidate time token and everything after it is the title, and
both are trimmed of surrounding spaces only (a title whose first and last
characters are not spaces — tabs included — passes through verbatim, so internal
formatting is preserved). -/
theorem parseLines_splits_at_first_space (a b : String)
    (ha : ∀ c ∈ a.data, c ≠ ' ') (ht : parseTime a = true) :
    parseLines [a ++ " " ++ b] = .ok [(trimSpaces a, trimSpaces b)] ∧
    (∀ s : String, (∀ c, s.data.head? = some c → c ≠ ' ') →
      (∀ c, s.data.getLast? = some c → c ≠ ' ') → trimSpaces s = s) := by
  constructor
  · have hdata : (a ++ " " ++ b).data = a.data ++ ' ' :: b.data := by
      rw [String.data_append, String.data_append]
      rw [show (" " : String).data = [' '] from rfl]
      rw [List.append_assoc]
      rfl
    have hne : (a ++ " " ++ b) ≠ "" := by
      intro h
      have hd : (a ++ " " ++ b).data = [] := by rw [h]
      rw [hdata] at hd
      exact absurd hd (by simp)
    have hsplit : splitAfterSpace (a ++ " " ++ b) = some (a ++ " ", b) := by
      unfold splitAfterSpace
      rw [hdata, splitAfterSpaceL_no_space a.data ha b.data]
      rfl
    have htr : parseTime (a ++ " ") = true := by
      unfold parseTime trimSpaces at ht ⊢
      rw [String.data_append, show (" " : String).data = [' '] from rfl,
        trimSpacesL_append_space]
      exact ht
    rw [parseLines_cons_good (a ++ " " ++ b) [] (a ++ " ") b hne hsplit htr]
    have htrim : trimSpaces (a ++ " ") = trimSpaces a := by
      unfold trimSpaces
      rw [String.data_append, show (" " : String).data = [' '] from rfl,
        trimSpacesL_append_space]
    rw [show parseLines [] = .ok [] from rfl]
    rw [htrim]
  · intro s hh hl
    unfold trimSpaces
    rw [trimSpacesL_fixed s.data hh hl]

/-- C7 witness: the line `"00:03:15 My  Song"` — the title keeps its internal
double space. -/
theorem parseLines_splits_at_first_space_witness :
    ((∀ c ∈ ("00:03:15" : String).data, c ≠ ' ') ∧ parseTime "00:03:15" = true) ∧
    (parseLines ["00:03:15" ++ " " ++ "My  Song"] =
      .ok [(trimSpaces "00:03:15", trimSpaces "My  Song")] ∧
    (∀ s : String, (∀ c, s.data.head? = some c → c ≠ ' ') →
      (∀ c, s.data.getLast? = some c → c ≠ ' ') → trimSpaces s = s)) :=
  ⟨⟨by decide, by decide⟩,
    parseLines_splits_at_first_space "00:03:15" "My  Song" (by decide) (by decide)⟩

/-! ## C8: entry shape after a successful parse -/

theorem parseTimecodes_ok_parseLines (lines : List String) (es : List (String × String))
    (h : parseTimecodes lines = .ok es) : parseLines lines = .ok es := by
  unfold parseTimecodes at h
  split at h
  · exact absurd h (by simp)
  · rename_i tcs heq
    split at h
    · exact absurd h (by simp)
    · split at h
      · exact absurd h (by simp)
      · rw [heq, Except.ok.inj h]

theorem parseLines_entries_shape :
    ∀ (lines : List String) (es : List (String × String)),
      parseLines lines = .ok es → ∀ e ∈ es, ∃ x y, e = (trimSpaces x, trimSpaces y) := by
  intro lines
  induction lines with
  | nil =>
    intro es hes e he
    simp only [parseLines] at hes
    have hnil : ([] : List (String × String)) = es := Except.ok.inj hes
    subst hnil
    exact absurd he (List.not_mem_nil e)
  | cons l ls ih =>
    intro es hes e he
    by_cases hne : l = ""
    · subst hne
      rw [parseLines_cons_blank] at hes
      exact ih es hes e he
    · rcases hs : splitAfterSpace l with _ | ⟨a, b⟩
      · rw [parseLines_cons_bad_format l ls (by
          unfold badFormatLine
          rw [Bool.and_eq_true]
          exact ⟨by simpa using hne, by rw [hs]; rfl⟩)] at hes
        exact absurd hes (by simp)
      · by_cases hp : parseTime a = true
        · rw [parseLines_cons_good l ls a b hne hs hp] at hes
          rcases hrec : parseLines ls with e2 | rest
          · rw [hrec] at hes
            exact absurd hes (by simp)
          · rw [hrec] at hes
            have hes2 : (trimSpaces a, trimSpaces b) :: rest = es := Except.ok.inj hes
            subst hes2
            rcases List.mem_cons.mp he with h | h
            · exact ⟨a, b, h⟩
            · exact ih rest hrec e h
        · rw [parseLines_cons_bad_time l ls (by
            unfold badTimeLine
            rw [Bool.and_eq_true]
            refine ⟨by simpa using hne, ?_⟩
            rw [hs]
            simpa using hp)] at hes
          exact absurd hes (by simp)

/-- C8 (amended): every entry a successful parse produces carries a time and a title
that are already space-trimmed (trimming them again changes nothing) — but the title
is NOT guaranteed non-empty: the parser applies no non-emptiness check (see the
counterexample `"00:00:00 "`, whose entry has an empty title). -/
theorem parse_entries_space_trimmed (lines : List String) (es : List (String × String))
    (h : parseTimecodes lines = .ok es) :
    ∀ e ∈ es, trimSpaces e.1 = e.1 ∧ trimSpaces e.2 = e.2 := by
  intro e he
  obtain ⟨x, y, rfl⟩ :=
    parseLines_entries_shape lines es (parseTimecodes_ok_parseLines lines es h) e he
  exact ⟨trimSpaces_idem x, trimSpaces_idem y⟩

/-- C8 witness: the single line `"00:00:00 Intro"`. -/
theorem parse_entries_space_trimmed_witness :
    parseTimecodes ["00:00:00 Intro"] = .ok [("00:00:00", "Intro")] ∧
    (∀ e ∈ [(("00:00:00" : String), ("Intro" : String))],
      trimSpaces e.1 = e.1 ∧ trimSpaces e.2 = e.2) :=
  ⟨rfl, parse_entries_space_trimmed ["00:00:00 Intro"] [("00:00:00", "Intro")] rfl⟩

/-! ## C3: error characterization of the parsing phase -/

theorem goodLine_false_cases (l : String) (h : goodLine l = false) :
    badFormatLine l = true ∨ badTimeLine l = true := by
  unfold goodLine at h
  rcases hbf : badFormatLine l with _ | _
  · rcases hbt : badTimeLine l with _ | _
    · rw [hbf, hbt] at h
      exact absurd h (by simp)
    · exact Or.inr rfl
  · exact Or.inl rfl

theorem goodLine_not_bad (l : String) (h : goodLine l = true) :
    badFormatLine l = false ∧ badTimeLine l = false := by
  unfold goodLine at h
  rw [Bool.and_eq_true] at h
  exact ⟨by simpa using h.1, by simpa using h.2⟩

theorem parseTimecodes_of_parseLines_error (lines : List String) (e : String)
    (h : parseLines lines = .error e) : parseTimecodes lines = .error e := by
  unfold parseTimecodes
  rw [h]

theorem parseLines_first_bad_format (pre : List String) (l : String) (rest : List String)
    (hpre : ∀ u ∈ pre, goodLine u = true) (hbad : badFormatLine l = true) :
    parseLines (pre ++ l :: rest) = .error "invalid format" := by
  induction pre with
  | nil =>
    rw [List.nil_append]
    exact parseLines_cons_bad_format l rest hbad
  | cons u us ih =>
    rw [List.cons_append]
    have hu := hpre u (List.mem_cons_self u us)
    have hrec := ih fun v hv => hpre v (List.mem_cons_of_mem u hv)
    by_cases hne : u = ""
    · subst hne
      rw [parseLines_cons_blank]
      exact hrec
    · obtain ⟨a, b, hs, hp⟩ := goodLine_shape u hu hne
      rw [parseLines_cons_good u _ a b hne hs hp, hrec]

theorem parseLines_first_bad_time (pre : List String) (l : String) (rest : List String)
    (hpre : ∀ u ∈ pre, goodLine u = true) (hbad : badTimeLine l = true) :
    parseLines (pre ++ l :: rest) = .error "invalid timecode" := by
  induction pre with
  | nil =>
    rw [List.nil_append]
    exact parseLines_cons_bad_time l rest hbad
  | cons u us ih =>
    rw [List.cons_append]
    have hu := hpre u (List.mem_cons_self u us)
    have hrec := ih fun v hv => hpre v (List.mem_cons_of_mem u hv)
    by_cases hne : u = ""
    · subst hne
      rw [parseLines_cons_blank]
      exact hrec
    · obtain ⟨a, b, hs, hp⟩ := goodLine_shape u hu hne
      rw [parseLines_cons_good u _ a b hne hs hp, hrec]

theorem parseLines_all_blank (lines : List String) (h : ∀ l ∈ lines, l = "") :
    parseLines lines = .ok [] := by
  induction lines with
  | nil => rfl
  | cons l ls ih =>
    have hl : l = "" := h l (List.mem_cons_self l ls)
    subst hl
    rw [parseLines_cons_blank]
    exact ih fun u hu => h u (List.mem_cons_of_mem _ hu)

theorem parseTimecodes_eq_ok (lines : List String) (tcs : List (String × String))
    (hl : parseLines lines = .ok tcs) :
    parseTimecodes lines =
      (if tcs.length = 0 then .error "no timecodes found"
       else if tcs.length > 999 then .error ("too many tracks: " ++ Nat.repr tcs.length)
       else .ok tcs) := by
  unfold parseTimecodes
  rw [hl]

/-- C3 (amended): timecode parsing fails iff some non-blank line has no SPACE
(U+0020) separator, or some line's time token fails Go time validation, or there are
zero non-blank entries, or more than 999; the corresponding errors are the fixed
strings `"invalid format"` (which does NOT name the offending line), `"invalid
timecode"`, `"no timecodes found"`, and `"too many tracks: <n>"` with the count; and
blank lines (empty lines only) are skipped entirely, never erroring and never
producing an entry. -/
theorem parseTimecodes_error_spec :
    (∀ lines : List String,
      (∃ e, parseTimecodes lines = .error e) ↔
        ((∃ l ∈ lines, badFormatLine l = true ∨ badTimeLine l = true) ∨
          (∀ l ∈ lines, l = "") ∨
          999 < (lines.filter (fun l => l != "")).length)) ∧
    (∀ (pre : List String) (l : String) (rest : List String),
      (∀ u ∈ pre, goodLine u = true) → badFormatLine l = true →
      parseTimecodes (pre ++ l :: rest) = .error "invalid format") ∧
    (∀ (pre : List String) (l : String) (rest : List String),
      (∀ u ∈ pre, goodLine u = true) → badTimeLine l = true →
      parseTimecodes (pre ++ l :: rest) = .error "invalid timecode") ∧
    (∀ lines : List String, (∀ l ∈ lines, l = "") →
      parseTimecodes lines = .error "no timecodes found") ∧
    (∀ lines : List String, (∀ l ∈ lines, goodLine l = true) →
      999 < (lines.filter (fun l => l != "")).length →
      parseTimecodes lines =
        .error ("too many tracks: " ++ Nat.repr (lines.filter (fun l => l != "")).length)) ∧
    (∀ l1 l2 : List String, parseTimecodes (l1 ++ "" :: l2) = parseTimecodes (l1 ++ l2)) := by
  refine ⟨?_, ?_, ?_, ?_, ?_, ?_⟩
  · intro lines
    constructor
    · rintro ⟨e, he⟩
      rcases hl : parseLines lines with e2 | tcs
      · left
        by_cases hall : ∀ l ∈ lines, goodLine l = true
        · obtain ⟨es, hes⟩ := (parseLines_ok_iff lines).mpr hall
          rw [hl] at hes
          exact absurd hes (by simp)
        · push_neg at hall
          obtain ⟨l, hlm, hlg⟩ := hall
          refine ⟨l, hlm, goodLine_false_cases l ?_⟩
          simpa using hlg
      · rw [parseTimecodes_eq_ok lines tcs hl] at he
        by_cases h0 : tcs.length = 0
        · right; left
          have hcount := parseLines_count lines tcs hl
          rw [h0] at hcount
          have hfil : lines.filter (fun l => l != "") = [] :=
            List.length_eq_zero.mp hcount.symm
          intro l hlm
          have hmem := List.filter_eq_nil_iff.mp hfil l hlm
          simpa using hmem
        · rw [if_neg h0] at he
          by_cases h9 : tcs.length > 999
          · right; right
            have hcount := parseLines_count lines tcs hl
            omega
          · rw [if_neg h9] at he
            exact absurd he (by simp)
    · rintro (⟨l, hlm, hbad⟩ | hblank | hbig)
      · rcases hl : parseLines lines with e2 | tcs
        · exact ⟨e2, parseTimecodes_of_parseLines_error lines e2 hl⟩
        · exfalso
          have hall := (parseLines_ok_iff lines).mp ⟨tcs, hl⟩
          have hgood := hall l hlm
          rcases hbad with hb | hb
          · have := (goodLine_not_bad l hgood).1
            rw [this] at hb
            exact absurd hb (by simp)
          · have := (goodLine_not_bad l hgood).2
            rw [this] at hb
            exact absurd hb (by simp)
      · exact ⟨"no timecodes found", by
          rw [parseTimecodes_eq_ok lines [] (parseLines_all_blank lines hblank)]
          rfl⟩
      · rcases hl : parseLines lines with e2 | tcs
        · exact ⟨e2, parseTimecodes_of_parseLines_error lines e2 hl⟩
        · have hcount := parseLines_count lines tcs hl
          refine ⟨"too many tracks: " ++ Nat.repr tcs.length, ?_⟩
          rw [parseTimecodes_eq_ok lines tcs hl, if_neg (by omega), if_pos (by omega)]
  · intro pre l rest hpre hbad
    exact parseTimecodes_of_parseLines_error _ _ (parseLines_first_bad_format pre l rest hpre hbad)
  · intro pre l rest hpre hbad
    exact parseTimecodes_of_parseLines_error _ _ (parseLines_first_bad_time pre l rest hpre hbad)
  · intro lines hblank
    rw [parseTimecodes_eq_ok lines [] (parseLines_all_blank lines hblank)]
    rfl
  · intro lines hall hbig
    obtain ⟨es, hes⟩ := (parseLines_ok_iff lines).mpr hall
    have hcount := parseLines_count lines es hes
    rw [parseTimecodes_eq_ok lines es hes, if_neg (by omega), if_pos (by omega), hcount]
  · intro l1 l2
    unfold parseTimecodes
    rw [parseLines_blank_skip]

/-- C3 witness: a good line followed by a separator-less line fails with the fixed
`"invalid format"` error. -/
theorem parseTimecodes_error_spec_witness :
    ((∀ u ∈ ["00:00:00 A"], goodLine u = true) ∧ badFormatLine "nospace" = true) ∧
    parseTimecodes (["00:00:00 A"] ++ "nospace" :: ["00:03:15 B"]) =
      .error "invalid format" :=
  ⟨⟨by decide, by decide⟩,
    parseTimecodes_error_spec.2.1 ["00:00:00 A"] "nospace" ["00:03:15 B"]
      (by decide) (by decide)⟩

/-! ## C2: the derived cut request -/

/-- C2 (amended): every cut request starts at the track's `start` (`-ss start`); when
`end` is present the cut is bounded by `-to end`, and when absent no `-to` option is
passed (the cut runs to end-of-stream); the cut is a stream copy (`-c copy`, no
re-encode); but the output container is ALWAYS forced to mp3 (`-f mp3`), regardless
of the output extension — only the output filename, the final argument, carries the
source file's extension verbatim. -/
theorem ffmpegArgs_spec (t : Track) (audioFile : String)
    (hs : t.Start ≠ "-to") (ha : audioFile ≠ "-to")
    (ho : t.outputFilename audioFile ≠ "-to") :
    ["-ss", t.Start] <:+: t.ffmpegArgs audioFile ∧
    (t.End ≠ "" → ["-ss", t.Start, "-to", t.End] <:+: t.ffmpegArgs audioFile) ∧
    (t.End = "" → ¬ ("-to" ∈ t.ffmpegArgs audioFile)) ∧
    ["-c", "copy"] <:+: t.ffmpegArgs audioFile ∧
    ["-f", "mp3"] <:+: t.ffmpegArgs audioFile ∧
    (t.ffmpegArgs audioFile).getLast? = some (t.outputFilename audioFile) ∧
    (∃ p : String, t.trackFileName audioFile = p ++ filepathExt audioFile) := by
  by_cases he : t.End = ""
  · have hargs : t.ffmpegArgs audioFile =
        ["-nostdin", "-y", "-loglevel", "error", "-ss", t.Start,
         "-i", audioFile, "-vn", "-c", "copy", "-f", "mp3",
         t.outputFilename audioFile] := by
      unfold Track.ffmpegArgs
      rw [if_pos he]
      rfl
    refine ⟨?_, fun hne => absurd he hne, ?_, ?_, ?_, ?_, ?_⟩
    · rw [hargs]
      exact ⟨["-nostdin", "-y", "-loglevel", "error"],
        ["-i", audioFile, "-vn", "-c", "copy", "-f", "mp3", t.outputFilename audioFile],
        by simp⟩
    · intro _ hmem
      rw [hargs] at hmem
      simp only [List.mem_cons, List.not_mem_nil, or_false] at hmem
      rcases hmem with h | h | h | h | h | h | h | h | h | h | h | h | h | h
      all_goals first
        | exact absurd h (by decide)
        | exact hs h.symm
        | exact ha h.symm
        | exact ho h.symm
    · rw [hargs]
      exact ⟨["-nostdin", "-y", "-loglevel", "error", "-ss", t.Start, "-i", audioFile, "-vn"],
        ["-f", "mp3", t.outputFilename audioFile], by simp⟩
    · rw [hargs]
      exact ⟨["-nostdin", "-y", "-loglevel", "error", "-ss", t.Start, "-i", audioFile,
        "-vn", "-c", "copy"], [t.outputFilename audioFile], by simp⟩
    · rw [hargs]
      rfl
    · exact ⟨padNum (if t.Total > 99 then 3 else 2) t.Number ++ " - " ++ t.Title, rfl⟩
  · have hargs : t.ffmpegArgs audioFile =
        ["-nostdin", "-y", "-loglevel", "error", "-ss", t.Start, "-to", t.End,
         "-i", audioFile, "-vn", "-c", "copy", "-f", "mp3",
         t.outputFilename audioFile] := by
      unfold Track.ffmpegArgs
      rw [if_neg he]
      rfl
    refine ⟨?_, ?_, fun hee => absurd hee he, ?_, ?_, ?_, ?_⟩
    · rw [hargs]
      exact ⟨["-nostdin", "-y", "-loglevel", "error"],
        ["-to", t.End, "-i", audioFile, "-vn", "-c", "copy", "-f", "mp3",
          t.outputFilename audioFile],
        by simp⟩
    · intro _
      rw [hargs]
      exact ⟨["-nostdin", "-y", "-loglevel", "error"],
        ["-i", audioFile, "-vn", "-c", "copy", "-f", "mp3", t.outputFilename audioFile],
        by simp⟩
    · rw [hargs]
      exact ⟨["-nostdin", "-y", "-loglevel", "error", "-ss", t.Start, "-to", t.End,
        "-i", audioFile, "-vn"],
        ["-f", "mp3", t.outputFilename audioFile], by simp⟩
    · rw [hargs]
      exact ⟨["-nostdin", "-y", "-loglevel", "error", "-ss", t.Start, "-to", t.End,
        "-i", audioFile, "-vn", "-c", "copy"], [t.outputFilename audioFile], by simp⟩
    · rw [hargs]
      rfl
    · exact ⟨padNum (if t.Total > 99 then 3 else 2) t.Number ++ " - " ++ t.Title, rfl⟩

/-- C2 witness: the final track of a two-track `.mp3` run. -/
theorem ffmpegArgs_spec_witness :
    ((⟨2, 2, "B", "00:03:15", "", "A", "Al"⟩ : Track).Start ≠ "-to" ∧
      ("song.mp3" : String) ≠ "-to" ∧
      (⟨2, 2, "B", "00:03:15", "", "A", "Al"⟩ : Track).outputFilename "song.mp3" ≠ "-to") ∧
    ["-f", "mp3"] <:+: (⟨2, 2, "B", "00:03:15", "", "A", "Al"⟩ : Track).ffmpegArgs "song.mp3" :=
  ⟨⟨by decide, by decide, by decide⟩,
    (ffmpegArgs_spec ⟨2, 2, "B", "00:03:15", "", "A", "Al"⟩ "song.mp3"
      (by decide) (by decide) (by decide)).2.2.2.2.1⟩

/-- C10 witness: a quote-free artist value yields exactly the two literal quote
bytes in the rendered argument. -/
theorem eyeD3Args_quoting_witness :
    ('"' ∈ ("Artist" : String).data → False) ∧
    ("--artist=\"" ++ "Artist" ++ "\"").data.count '"' = 2 :=
  ⟨by decide,
    (eyeD3Args_quoting ⟨1, 2, "T", "00:00:00", "", "Artist", "Alb"⟩ "s.mp3").2.1 "Artist"
      (by decide)⟩

/-! ## C6: what the time validation accepts -/

theorem natOfDigits_one (a : Char) : natOfDigits [a] = digitVal a := by
  simp [natOfDigits]

theorem natOfDigits_two (a b : Char) : natOfDigits [a, b] = 10 * digitVal a + digitVal b := by
  simp [natOfDigits]

theorem expectColon_shape {cs r : List Char} (h : expectColon cs = some r) :
    cs = ':' :: r := by
  cases cs with
  | nil => exact absurd h (by simp [expectColon])
  | cons c t =>
    simp only [expectColon] at h
    by_cases hc : c = ':'
    · rw [if_pos hc] at h
      rw [hc, Option.some.inj h]
    · rw [if_neg hc] at h
      exact absurd h (by simp)

theorem parseFixed2_shape {cs : List Char} {v : Nat} {r : List Char}
    (h : parseFixed2 cs = some (v, r)) :
    ∃ a b, cs = a :: b :: r ∧ isDigitChar a = true ∧ isDigitChar b = true ∧
      v = 10 * digitVal a + digitVal b := by
  cases cs with
  | nil => exact absurd h (by simp [parseFixed2])
  | cons a t =>
    cases t with
    | nil => exact absurd h (by simp [parseFixed2])
    | cons b r2 =>
      simp only [parseFixed2] at h
      by_cases hd : (isDigitChar a && isDigitChar b) = true
      · rw [if_pos hd] at h
        have hp := Option.some.inj h
        injection hp with hv hr
        rw [Bool.and_eq_true] at hd
        exact ⟨a, b, by rw [hr], hd.1, hd.2, hv.symm⟩
      · rw [if_neg hd] at h
        exact absurd h (by simp)

theorem parseHourTok_shape {cs : List Char} {v : Nat} {r : List Char}
    (h : parseHourTok cs = some (v, r)) :
    (∃ a, cs = a :: r ∧ isDigitChar a = true ∧ v = digitVal a) ∨
    (∃ a b, cs = a :: b :: r ∧ isDigitChar a = true ∧ isDigitChar b = true ∧
      v = 10 * digitVal a + digitVal b) := by
  cases cs with
  | nil => exact absurd h (by simp [parseHourTok])
  | cons a t =>
    cases t with
    | nil =>
      simp only [parseHourTok] at h
      by_cases hd : isDigitChar a = true
      · rw [if_pos hd] at h
        have hp := Option.some.inj h
        injection hp with hv hr
        exact Or.inl ⟨a, by rw [← hr], hd, hv.symm⟩
      · rw [if_neg hd] at h
        exact absurd h (by simp)
    | cons b t2 =>
      simp only [parseHourTok] at h
      by_cases hda : isDigitChar a = true
      · rw [if_pos hda] at h
        by_cases hdb : isDigitChar b = true
        · rw [if_pos hdb] at h
          have hp := Option.some.inj h
          injection hp with hv hr
          exact Or.inr ⟨a, b, by rw [hr], hda, hdb, hv.symm⟩
        · rw [if_neg hdb] at h
          have hp := Option.some.inj h
          injection hp with hv hr
          exact Or.inl ⟨a, by rw [← hr], hda, hv.symm⟩
      · rw [if_neg hda] at h
        exact absurd h (by simp)

theorem goodHour_cases {h : List Char} (hg : goodHour h = true) :
    (∃ a, h = [a] ∧ isDigitChar a = true ∧ digitVal a < 24) ∨
    (∃ a b, h = [a, b] ∧ isDigitChar a = true ∧ isDigitChar b = true ∧
      10 * digitVal a + digitVal b < 24) := by
  unfold goodHour at hg
  rw [Bool.and_eq_true, Bool.and_eq_true] at hg
  obtain ⟨⟨hlen, hall⟩, hval⟩ := hg
  have hval := of_decide_eq_true hval
  rw [Bool.or_eq_true] at hlen
  rcases hlen with h1 | h2
  · obtain ⟨a, rfl⟩ := List.length_eq_one.mp (of_decide_eq_true h1)
    rw [natOfDigits_one] at hval
    refine Or.inl ⟨a, rfl, ?_, hval⟩
    simpa using hall
  · obtain ⟨a, b, rfl⟩ := List.length_eq_two.mp (of_decide_eq_true h2)
    rw [natOfDigits_two] at hval
    rw [List.all_cons, List.all_cons, Bool.and_eq_true, Bool.and_eq_true] at hall
    exact Or.inr ⟨a, b, rfl, hall.1, hall.2.1, hval⟩

theorem goodMinSec_cases {m : List Char} (hg : goodMinSec m = true) :
    ∃ a b, m = [a, b] ∧ isDigitChar a = true ∧ isDigitChar b = true ∧
      10 * digitVal a + digitVal b < 60 := by
  unfold goodMinSec at hg
  rw [Bool.and_eq_true, Bool.and_eq_true] at hg
  obtain ⟨⟨hlen, hall⟩, hval⟩ := hg
  obtain ⟨a, b, rfl⟩ := List.length_eq_two.mp (of_decide_eq_true hlen)
  rw [List.all_cons, List.all_cons, Bool.and_eq_true, Bool.and_eq_true] at hall
  have hval := of_decide_eq_true hval
  rw [natOfDigits_two] at hval
  exact ⟨a, b, rfl, hall.1, hall.2.1, hval⟩

theorem timeParseOk_iff (cs : List Char) :
    timeParseOk cs = true ↔
      ∃ h m s f : List Char, cs = h ++ ':' :: (m ++ ':' :: (s ++ f)) ∧
        goodHour h = true ∧ goodMinSec m = true ∧ goodMinSec s = true ∧
        parseFrac f = true := by
  constructor
  · intro hok
    unfold timeParseOk at hok
    split at hok
    · exact absurd hok (by simp)
    rename_i v r1 hh
    split at hok
    · exact absurd hok (by simp)
    rename_i r2 hc1
    split at hok
    · exact absurd hok (by simp)
    rename_i mv r3 hfm
    split at hok
    · exact absurd hok (by simp)
    rename_i r4 hc2
    split at hok
    · exact absurd hok (by simp)
    rename_i sv r5 hfs
    rw [Bool.and_eq_true, Bool.and_eq_true, Bool.and_eq_true] at hok
    ·
              obtain ⟨⟨⟨h24, h60m⟩, h60s⟩, hfr⟩ := hok
              have h24 := of_decide_eq_true h24
              have h60m := of_decide_eq_true h60m
              have h60s := of_decide_eq_true h60s
              obtain ⟨m1, m2, hr2, hdm1, hdm2, hmv⟩ := parseFixed2_shape hfm
              obtain ⟨s1, s2, hr4, hds1, hds2, hsv⟩ := parseFixed2_shape hfs
              have hr1 : r1 = ':' :: r2 := expectColon_shape hc1
              have hr3 : r3 = ':' :: r4 := expectColon_shape hc2
              have hgm : goodMinSec [m1, m2] = true := by
                have hv60 : natOfDigits [m1, m2] < 60 := by
                  rw [natOfDigits_two, ← hmv]; exact h60m
                simp [goodMinSec, hdm1, hdm2, hv60]
              have hgs : goodMinSec [s1, s2] = true := by
                have hv60 : natOfDigits [s1, s2] < 60 := by
                  rw [natOfDigits_two, ← hsv]; exact h60s
                simp [goodMinSec, hds1, hds2, hv60]
              rcases parseHourTok_shape hh with ⟨a, hcs, hda, hv⟩ |
                  ⟨a, b, hcs, hda, hdb, hv⟩
              · refine ⟨[a], [m1, m2], [s1, s2], r5, ?_, ?_, hgm, hgs, hfr⟩
                · rw [hcs, hr1, hr2, hr3, hr4]
                  simp
                · have h24a : natOfDigits [a] < 24 := by
                    rw [natOfDigits_one, ← hv]; exact h24
                  simp [goodHour, hda, h24a]
              · refine ⟨[a, b], [m1, m2], [s1, s2], r5, ?_, ?_, hgm, hgs, hfr⟩
                · rw [hcs, hr1, hr2, hr3, hr4]
                  simp
                · have h24a : natOfDigits [a, b] < 24 := by
                    rw [natOfDigits_two, ← hv]; exact h24
                  simp [goodHour, hda, hdb, h24a]
  · rintro ⟨h, m, s, f, hcs, hgh, hgm, hgs, hfr⟩
    subst hcs
    obtain ⟨m1, m2, rfl, hdm1, hdm2, hm60⟩ := goodMinSec_cases hgm
    obtain ⟨s1, s2, rfl, hds1, hds2, hs60⟩ := goodMinSec_cases hgs
    have hcolon : isDigitChar ':' = false := rfl
    have hfix2 : ∀ (x y : Char) (r : List Char), isDigitChar x = true → isDigitChar y = true →
        parseFixed2 (x :: y :: r) = some (10 * digitVal x + digitVal y, r) := by
      intro x y r hx hy
      simp [parseFixed2, hx, hy]
    have hcol : ∀ r : List Char, expectColon (':' :: r) = some r := by
      intro r
      simp [expectColon]
    rcases goodHour_cases hgh with ⟨a, rfl, hda, h24⟩ | ⟨a, b, rfl, hda, hdb, h24⟩
    · show timeParseOk
        (a :: ':' :: m1 :: m2 :: ':' :: s1 :: s2 :: f) = true
      simp [timeParseOk, parseHourTok, parseFixed2, expectColon, hda, hcolon,
        hdm1, hdm2, hds1, hds2, h24, hm60, hs60, hfr]
    · show timeParseOk
        (a :: b :: ':' :: m1 :: m2 :: ':' :: s1 :: s2 :: f) = true
      simp [timeParseOk, parseHourTok, parseFixed2, expectColon, hda, hdb, hcolon,
        hdm1, hdm2, hds1, hds2, h24, hm60, hs60, hfr]

/-- C6 (amended): the code accepts a time token iff, after trimming leading and
trailing SPACES (U+0020 only, not general whitespace), it has the form `H:MM:SS`
with a one- or two-digit hour below 24, exactly two-digit minutes and seconds below
60, optionally followed by a fractional-second tail — a `'.'` or `','` and one or
more digits.  In particular hours need not have exactly two digits. -/
theorem parseTime_iff_spec (t : String) : parseTime t = true ↔ timeAcceptSpec t := by
  unfold parseTime timeAcceptSpec
  exact timeParseOk_iff (trimSpaces t).data
